import Mathlib

/-!
Verification of the vendor-analysis synchronization core
(`apps/vendor-analysis/src/vendor_analysis`): a shallow embedding of the
NetSuite client retry loop, the read-only guard, the SuiteQL fetch loop, the
field classifier, the custom-field lifecycle merge, and the sync-metadata
cursor update, together with theorems settling the specification claims.

Modelling conventions:
- JSON values are modelled by `JVal`.  Python `datetime` instants are
  modelled as integers (seconds); an ISO-8601 datetime string is modelled by
  the constructor `JVal.time` carrying the instant it encodes, since
  `datetime.isoformat` / `datetime.fromisoformat` form a bijection between
  instants and such strings.  `fromisoformat` applied to anything that is not
  an ISO datetime string raises, which is modelled as `none`.
- Python dicts are modelled as association lists built only through
  `dictInsert`, which mirrors dict assignment (update in place, else append),
  so key order is insertion order as in Python; dict equality (`==`) is
  extensional and is modelled by `dictEq`.
- Python floats and ints are both modelled by `JVal.num : Int`; this is
  adequate because no claim depends on fractional values, and Python's `==`
  identifies `5.0` with `5`.  The textual rendering of composite values by
  `str()` is not relied on by any theorem.
-/

namespace VendorAnalysis

/-- A JSON-like value as handled by the Python code.  `time t` models an
ISO-8601 datetime string by the instant `t` (in seconds) it encodes. -/
inductive JVal where
  | null
  | bool (b : Bool)
  | num (n : Int)
  | str (s : String)
  | time (t : Int)
  | obj (fields : List (String × JVal))
  | arr (elems : List JVal)

instance : Inhabited JVal := ⟨JVal.null⟩

/-- Association-list maps standing for Python dicts. -/
abbrev CMap := List (String × JVal)

/-- Python `d.get(k)` / `k in d`: first (unique) binding of `k`. -/
def lookupKey : CMap → String → Option JVal
  | [], _ => none
  | (k', v) :: rest, k => if k' == k then some v else lookupKey rest k

/-- Python dict assignment `d[k] = v`: replace in place if present, else
append. -/
def dictInsert : CMap → String → JVal → CMap
  | [], k, v => [(k, v)]
  | (k', v') :: rest, k, v =>
    if k' == k then (k, v) :: rest else (k', v') :: dictInsert rest k v

/-- Python truthiness of a JSON value.  An ISO datetime string is never
empty, hence always truthy. -/
def truthy : JVal → Bool
  | .null => false
  | .bool b => b
  | .num n => n != 0
  | .str s => s != ""
  | .time _ => true
  | .obj l => !l.isEmpty
  | .arr l => !l.isEmpty

/-- Python `s.lower()` (the keys involved are ASCII). -/
def pyLower (s : String) : String := ⟨s.data.map Char.toLower⟩

/-- Python `s.upper()` (the strings involved are ASCII). -/
def pyUpper (s : String) : String := ⟨s.data.map Char.toUpper⟩

/-- Python dict equality is extensional (key set plus per-key values). -/
def dictEq (a b : CMap) : Prop := ∀ k, lookupKey a k = lookupKey b k

/-- Lift `dictEq` to fallible results (`none` models a raised exception). -/
def optionDictEq : Option CMap → Option CMap → Prop
  | none, none => True
  | some a, some b => dictEq a b
  | _, _ => False

/-! ## netsuite/field_processor.py: `extract_reference_value` -/

/-- `extract_reference_value(field_value)`: on a dict, return
`value.get("refName") or value.get("id")` (Python `or`: first operand if
truthy, else second); a plain string passes through; anything else gives
`None`. -/
def extract_reference_value : JVal → JVal
  | .obj fields =>
    let refName := (lookupKey fields "refName").getD .null
    if truthy refName then refName else (lookupKey fields "id").getD .null
  | .str s => .str s
  | .time t => .time t
  | _ => .null

/-! ## netsuite/field_processor.py: `merge_custom_fields` -/

/-- `(sync_timestamp - last_seen).days`: Python `timedelta.days` floors. -/
def pyDays (t lastSeen : Int) : Int := Int.fdiv (t - lastSeen) 86400

/-- Entry built for a field present in the new payload: value from the new
payload, `last_seen = now`, `deprecated = False`, `first_seen` preserved from
an existing metadata entry when available, else `now`. -/
def mergedNewEntry (v : JVal) (t : Int) (exEntry : Option JVal) : JVal :=
  let firstSeen :=
    match exEntry with
    | some (.obj fields) => (lookupKey fields "first_seen").getD (.time t)
    | _ => .time t
  .obj [("value", v), ("last_seen", .time t), ("deprecated", .bool false),
        ("first_seen", firstSeen)]

/-- Entry retained for a field missing from the new payload.  A metadata
entry is copied; if its `last_seen` is a truthy value it is parsed
(`fromisoformat`, raising on non-datetimes, modelled as `none`) and
`deprecated` is set once more than 30 days have passed.  A legacy flat value
is upgraded to a metadata entry with unknown history. -/
def mergedMissingEntry (exEntry : JVal) (t : Int) : Option JVal :=
  match exEntry with
  | .obj fields =>
    match lookupKey fields "last_seen" with
    | some lastSeen =>
      if truthy lastSeen then
        match lastSeen with
        | .time lastSeenT =>
          if pyDays t lastSeenT > 30 then
            some (.obj (dictInsert fields "deprecated" (.bool true)))
          else some (.obj fields)
        | _ => none
      else some (.obj fields)
    | none => some (.obj fields)
  | v =>
    some (.obj [("value", v), ("first_seen", .time t), ("last_seen", .time t),
                ("deprecated", .bool true)])

/-- The merged entry for one field name of the union. -/
def mergeField (ex new : CMap) (t : Int) (k : String) : Option JVal :=
  match lookupKey new k with
  | some v => some (mergedNewEntry v t (lookupKey ex k))
  | none =>
    match lookupKey ex k with
    | some e => mergedMissingEntry e t
    | none => none

/-- The `for field in all_fields` loop: build the merged dict in key order,
aborting the whole merge if any entry raises. -/
def mergeLoop (f : String → Option JVal) : List String → Option CMap
  | [] => some []
  | k :: rest =>
    match f k, mergeLoop f rest with
    | some v, some m => some ((k, v) :: m)
    | _, _ => none

/-- `all_fields = set(existing.keys()) | set(new.keys())`. -/
def unionKeys (ex new : CMap) : List String :=
  (ex.map Prod.fst ++ new.map Prod.fst).dedup

/-- `merge_custom_fields(existing, new, sync_timestamp)`.  `none` existing is
replaced by the empty dict; the loop runs over the union of the field
names. -/
def merge_custom_fields (existing : Option CMap) (new : CMap) (t : Int) :
    Option CMap :=
  let ex := existing.getD []
  mergeLoop (mergeField ex new t) (unionKeys ex new)

/-! ## core/field_config.py: known-field allow-lists -/

/-- `VENDOR_KNOWN_FIELDS`: the vendor allow-list of stable NetSuite fields. -/
def VENDOR_KNOWN_FIELDS : List String :=
  ["id", "entityId",
   "companyName", "legalName", "email", "phone", "fax", "url",
   "isInactive", "isPerson",
   "balance", "balancePrimary", "creditLimit", "unbilledOrders",
   "unbilledOrdersPrimary",
   "currency", "terms", "category", "subsidiary",
   "dateCreated", "lastModifiedDate",
   "taxIdNum", "taxRegistrationList",
   "accountNumber",
   "addressBook", "contactList", "currencyList", "subscriptionsList",
   "rolesList",
   "comments", "printOnCheckAs", "altName", "defaultAddress", "billPay",
   "eligibleForCommission", "emailPreference", "emailTransactions",
   "printTransactions", "faxTransactions", "representingSubsidiary",
   "workCalendar", "giveAccess", "sendEmail", "password", "requirePwdChange",
   "inheritIPRules", "globalSubscriptionStatus"]

/-- `VENDOR_BILL_KNOWN_FIELDS`: the vendor-bill allow-list. -/
def VENDOR_BILL_KNOWN_FIELDS : List String :=
  ["id", "tranId", "entity",
   "tranDate", "dueDate", "createdDate", "lastModifiedDate",
   "userTotal", "total", "amountRemaining", "exchangeRate",
   "currency", "status", "approvalStatus", "subsidiary",
   "memo", "tranStatus"]

/-! ## netsuite/field_processor.py: classification -/

/-- Python `str(value)`.  Strings (ISO datetime strings included) pass
through unchanged; atoms get their Python rendering; the exact rendering of
composite values is not relied on by any theorem. -/
def pyStr : JVal → JVal
  | .str s => .str s
  | .time t => .time t
  | .num n => .str (toString n)
  | .bool b => .str (if b then "True" else "False")
  | .null => .str "None"
  | _ => .str "<composite>"

/-- Python `float(value)`: numbers pass through (ints and floats are one
numeric type here), numeric strings parse, booleans coerce, everything else
raises (`none`).  Decimal strings outside the integers are not needed by any
theorem. -/
def pyFloat : JVal → Option JVal
  | .num n => some (.num n)
  | .str s => (s.toInt?).map (fun n => JVal.num n)
  | .bool b => some (.num (if b then 1 else 0))
  | _ => none

/-- `float(value) if value is not None else default`. -/
def coerceFloat (v : JVal) (default : Int) : Option JVal :=
  match v with
  | .null => some (.num default)
  | v => pyFloat v

/-- The `isInactive` coercion: a string compares with `"T"` after
upper-casing (an ISO datetime string is a Python string, never `"T"`), `None`
gives `False`, anything else takes its truthiness (`bool(value)`). -/
def coerceIsInactive : JVal → Bool
  | .str s => pyUpper s == "T"
  | .time _ => false
  | .null => false
  | v => truthy v

/-- `str(value) if value else ""`. -/
def strOrEmpty (v : JVal) : JVal := if truthy v then pyStr v else .str ""

/-- `str(value) if value else None`. -/
def strOrNull (v : JVal) : JVal := if truthy v then pyStr v else .null

/-- SuiteQL lowercase to camelCase key normalization for vendors. -/
def normalizeVendorKey (k : String) : String :=
  if pyLower k == "entityid" then "entityId"
  else if pyLower k == "companyname" then "companyName"
  else if pyLower k == "isinactive" then "isInactive"
  else if pyLower k == "datecreated" then "dateCreated"
  else if pyLower k == "lastmodifieddate" then "lastModifiedDate"
  else k

/-- The normalization loop producing `normalized_data` for vendors. -/
def normalizeVendorData (raw : CMap) : CMap :=
  raw.foldl (fun acc p => dictInsert acc (normalizeVendorKey p.1) p.2) []

/-- The custom-field branch: a dict with a `refName` key is unwrapped via
`extract_reference_value`; any other value is stored as-is. -/
def customValue (v : JVal) : JVal :=
  match v with
  | .obj fields =>
    if (lookupKey fields "refName").isSome then
      extract_reference_value (.obj fields)
    else .obj fields
  | v => v

/-- The per-field `elif` chain for vendor known fields: returns the updated
`known` dict, `none` when a coercion raises.  A field on the allow-list with
no handling clause leaves `known` unchanged (the field is dropped). -/
def applyKnownVendorField (k : String) (v : JVal) (known : CMap) :
    Option CMap :=
  if k == "id" then some (dictInsert known "id" (pyStr v))
  else if k == "entityId" then some (dictInsert known "entity_id" (strOrEmpty v))
  else if k == "companyName" then some (dictInsert known "company_name" (strOrNull v))
  else if k == "email" then some (dictInsert known "email" (strOrNull v))
  else if k == "phone" then some (dictInsert known "phone" (strOrNull v))
  else if k == "isInactive" then
    some (dictInsert known "is_inactive" (.bool (coerceIsInactive v)))
  else if k == "balance" then
    (coerceFloat v 0).map (fun b => dictInsert known "balance" b)
  else if k == "currency" || k == "terms" then
    some (dictInsert known k (extract_reference_value v))
  else if k == "dateCreated" then some (dictInsert known "created_date" v)
  else if k == "lastModifiedDate" then
    some (dictInsert known "last_modified_date" v)
  else some known

/-- The classification loop of `process_vendor_fields`: skip metadata keys,
route allow-listed keys through the known-field chain, everything else into
the custom dict. -/
def processVendorLoop : List (String × JVal) → CMap → CMap →
    Option (CMap × CMap)
  | [], known, custom => some (known, custom)
  | (k, v) :: rest, known, custom =>
    if k == "links" || k == "refName" then processVendorLoop rest known custom
    else if VENDOR_KNOWN_FIELDS.contains k then
      match applyKnownVendorField k v known with
      | some known2 => processVendorLoop rest known2 custom
      | none => none
    else processVendorLoop rest known (dictInsert custom k (customValue v))

/-- `process_vendor_fields(raw_data) -> (known, custom)`. -/
def process_vendor_fields (raw : CMap) : Option (CMap × CMap) :=
  processVendorLoop (normalizeVendorData raw) [] []

/-- SuiteQL lowercase to camelCase key normalization for vendor bills. -/
def normalizeBillKey (k : String) : String :=
  if pyLower k == "tranid" then "tranId"
  else if pyLower k == "trandate" then "tranDate"
  else if pyLower k == "duedate" then "dueDate"
  else if pyLower k == "createddate" then "createdDate"
  else if pyLower k == "lastmodifieddate" then "lastModifiedDate"
  else if pyLower k == "usertotal" then "userTotal"
  else if pyLower k == "exchangerate" then "exchangeRate"
  else k

/-- The normalization loop producing `normalized_data` for vendor bills. -/
def normalizeBillData (raw : CMap) : CMap :=
  raw.foldl (fun acc p => dictInsert acc (normalizeBillKey p.1) p.2) []

/-- The per-field `elif` chain for vendor-bill known fields.  The `entity`
reference falls back to `""` when the extracted value is falsy
(`extract_reference_value(value) or ""`). -/
def applyKnownBillField (k : String) (v : JVal) (known : CMap) :
    Option CMap :=
  if k == "id" then some (dictInsert known "id" (pyStr v))
  else if k == "entity" then
    some (dictInsert known "vendor_id"
      (let e := extract_reference_value v
       if truthy e then e else .str ""))
  else if k == "tranId" then some (dictInsert known "tran_id" (strOrNull v))
  else if k == "createdDate" then some (dictInsert known "created_date" v)
  else if k == "lastModifiedDate" then
    some (dictInsert known "last_modified_date" v)
  else if k == "tranDate" then some (dictInsert known "tran_date" v)
  else if k == "dueDate" then some (dictInsert known "due_date" v)
  else if k == "userTotal" then
    (coerceFloat v 0).map (fun a => dictInsert known "amount" a)
  else if k == "currency" || k == "status" then
    some (dictInsert known k (extract_reference_value v))
  else if k == "exchangeRate" then
    (coerceFloat v 1).map (fun e => dictInsert known "exchange_rate" e)
  else if k == "memo" then some (dictInsert known "memo" (strOrNull v))
  else some known

/-- The classification loop of `process_vendor_bill_fields`. -/
def processBillLoop : List (String × JVal) → CMap → CMap →
    Option (CMap × CMap)
  | [], known, custom => some (known, custom)
  | (k, v) :: rest, known, custom =>
    if k == "links" || k == "refName" then processBillLoop rest known custom
    else if VENDOR_BILL_KNOWN_FIELDS.contains k then
      match applyKnownBillField k v known with
      | some known2 => processBillLoop rest known2 custom
      | none => none
    else processBillLoop rest known (dictInsert custom k (customValue v))

/-- `process_vendor_bill_fields(raw_data) -> (known, custom)`. -/
def process_vendor_bill_fields (raw : CMap) : Option (CMap × CMap) :=
  processBillLoop (normalizeBillData raw) [] []

/-! ## netsuite/client.py: `NetSuiteClient` -/

/-- Outcome of one HTTP attempt: a response with its status code and parsed
body, or a transport failure (`httpx.HTTPError`). -/
inductive HttpOutcome where
  | response (status : Nat) (body : JVal)
  | netError

/-- Observable side effects of the client, in order: an
`auth.get_auth_headers` call, an HTTP round trip (tagged with the attempt
index), or a backoff sleep of the given duration. -/
inductive ClientEvent where
  | auth
  | httpCall (attempt : Nat)
  | sleep (seconds : Nat)
  deriving DecidableEq

/-- How `_request` terminates. -/
inductive RequestResult where
  | ok (body : JVal)
  | readOnlyViolation
  | apiError (status : Nat)
  | connectionError
  | connectionErrorFallback

/-- How `query_suiteql` terminates: a transport failure is not caught there
and propagates as the raw library error. -/
inductive QueryResult where
  | ok (body : JVal)
  | apiError (status : Nat)
  | transportRaised

/-- `ALLOWED_HTTP_METHODS` from core/constants.py. -/
def ALLOWED_HTTP_METHODS : List String := ["GET"]

/-- `_enforce_read_only` passes iff the upper-cased method is allowed. -/
def enforceReadOnlyOk (method : String) : Bool :=
  ALLOWED_HTTP_METHODS.contains (pyUpper method)

def isAuthEvent : ClientEvent → Bool
  | .auth => true
  | _ => false

def isHttpEvent : ClientEvent → Bool
  | .httpCall _ => true
  | _ => false

/-- The sleep durations of a trace, in order. -/
def sleepDurations (evs : List ClientEvent) : List Nat :=
  evs.filterMap fun e =>
    match e with
    | .sleep d => some d
    | _ => none

/-- The `for attempt in range(max_retries)` loop of `_request`, tracked by
the number of remaining iterations.  A 200 returns the body; any other
status raises `NetSuiteAPIError`, which is not an `httpx.HTTPError` and so
escapes the loop at once; a transport error sleeps
`retry_delay * (attempt + 1)` and retries while `attempt < max_retries - 1`,
else raises `NetSuiteConnectionError`.  An exhausted range (only possible
when `max_retries = 0`) hits the fallback raise after the loop. -/
def attemptLoop (oracle : Nat → HttpOutcome) (maxRetries retryDelay : Nat) :
    Nat → Nat → List ClientEvent × RequestResult
  | _, 0 => ([], .connectionErrorFallback)
  | attempt, remaining + 1 =>
    match oracle attempt with
    | .response status body =>
      if status == 200 then ([.httpCall attempt], .ok body)
      else ([.httpCall attempt], .apiError status)
    | .netError =>
      if attempt < maxRetries - 1 then
        let r := attemptLoop oracle maxRetries retryDelay (attempt + 1) remaining
        (.httpCall attempt :: .sleep (retryDelay * (attempt + 1)) :: r.1, r.2)
      else ([.httpCall attempt], .connectionError)

/-- `_request(method, endpoint, params)`: the read-only guard runs first
(before URL building, auth, and any I/O); auth headers are computed once,
before the retry loop, and every attempt reuses them. -/
def requestRun (method : String) (oracle : Nat → HttpOutcome)
    (maxRetries retryDelay : Nat) : List ClientEvent × RequestResult :=
  if enforceReadOnlyOk method then
    let r := attemptLoop oracle maxRetries retryDelay 0 maxRetries
    (ClientEvent.auth :: r.1, r.2)
  else ([], .readOnlyViolation)

/-- `query_suiteql(sql_query, limit, offset)`: no read-only guard (the
transport-level POST is exempt), one auth-header call, exactly one HTTP round
trip, any non-200 status raising `NetSuiteAPIError`, and no handler for
transport errors. -/
def querySuiteqlRun (outcome : HttpOutcome) : List ClientEvent × QueryResult :=
  ([.auth, .httpCall 0],
   match outcome with
   | .response status body =>
     if status != 200 then .apiError status else .ok body
   | .netError => .transportRaised)

/-! ## netsuite/queries.py: `fetch_all_vendors_suiteql` -/

/-- One SuiteQL response page as consumed by the fetch loop
(`response.get("items", [])`, `response.get("hasMore", False)`). -/
structure SuiteQLPage where
  items : List JVal
  hasMore : Bool

/-- Python `if limit`: a limit of `None` or `0` is falsy. -/
def limitTruthy : Option Nat → Bool
  | none => false
  | some l => l != 0

/-- The `while True` pagination loop: each iteration performs exactly one
`query_suiteql` call (counted in the second component); an empty page breaks;
a reached record limit truncates and breaks; `hasMore = False` breaks.  The
list argument holds the successive upstream responses, an exhausted list
standing for an empty next page. -/
def fetchLoop (limit : Option Nat) :
    List SuiteQLPage → List JVal → List JVal × Nat
  | [], acc => (acc, 1)
  | page :: rest, acc =>
    if page.items.isEmpty then (acc, 1)
    else
      let acc2 := acc ++ page.items
      if limitTruthy limit ∧ limit.getD 0 ≤ acc2.length then
        (acc2.take (limit.getD 0), 1)
      else if page.hasMore then
        let r := fetchLoop limit rest acc2
        (r.1, r.2 + 1)
      else (acc2, 1)

/-- `fetch_all_vendors_suiteql`: returns the accumulated records and the
number of `query_suiteql` calls made (pages fetched). -/
def fetch_all_vendors_suiteql (pages : List SuiteQLPage) (limit : Option Nat) :
    List JVal × Nat :=
  fetchLoop limit pages []

/-! ## cli/sync.py: `sync_command` storage and metadata phases -/

/-- Database effects of the storage phase, in order: a record upsert, a
`session.commit()`, or the sync-metadata write. -/
inductive DbEvent where
  | upsert
  | commit
  | metaWrite
  deriving DecidableEq

/-- The non-dry-run vendor storage phase: every fetched record is upserted,
then one `session.commit()`; only when records were fetched, the metadata row
is written and committed separately. -/
def vendorStoreEvents (records : List JVal) : List DbEvent :=
  (records.map fun _ => DbEvent.upsert) ++ [DbEvent.commit] ++
    (if records.length > 0 then [DbEvent.metaWrite, DbEvent.commit] else [])

/-- Commits that cover the record writes: commits before the metadata
write. -/
def recordPhaseCommits (evs : List DbEvent) : Nat :=
  (evs.takeWhile fun e => !(e == DbEvent.metaWrite)).count DbEvent.commit

/-- The `SyncMetadata` row fields touched by `sync_command`. -/
structure SyncMetadataRow where
  last_sync_timestamp : Int
  sync_status : String
  records_synced : Nat
  is_full_sync : Bool
  updated_at : Option Int

/-- The metadata update at the end of an entity-type sync run: skipped
entirely under dry-run; when `fetched > 0` the row is updated in place (or
created), with `last_sync_timestamp` set to the run's start timestamp,
`records_synced` to the fetched count, and `is_full_sync` to
`full or vendor_max_created is None`; when zero records were fetched the row
is left untouched. -/
def updateVendorSyncMetadata (meta : Option SyncMetadataRow) (fetched : Nat)
    (syncTimestamp : Int) (full hadWatermark dryRun : Bool) :
    Option SyncMetadataRow :=
  if dryRun then meta
  else if fetched > 0 then
    match meta with
    | some _ =>
      some ⟨syncTimestamp, "completed", fetched, full || !hadWatermark,
            some syncTimestamp⟩
    | none =>
      some ⟨syncTimestamp, "completed", fetched, full || !hadWatermark, none⟩
  else meta

/-- The inputs of one sync run, as seen by the metadata update. -/
structure SyncRunInput where
  fetched : Nat
  timestamp : Int
  full : Bool
  hadWatermark : Bool
  dryRun : Bool

/-- A sequence of runs applied to the stored metadata row. -/
def applySyncRuns (m0 : Option SyncMetadataRow) (runs : List SyncRunInput) :
    Option SyncMetadataRow :=
  runs.foldl
    (fun m r =>
      updateVendorSyncMetadata m r.fetched r.timestamp r.full r.hadWatermark
        r.dryRun)
    m0

/-! ## Supporting lemmas on the dict model -/

lemma lookupKey_isSome_iff (m : CMap) (k : String) :
    (lookupKey m k).isSome ↔ k ∈ m.map Prod.fst := by
  induction m with
  | nil => simp [lookupKey]
  | cons p rest ih =>
    obtain ⟨k', v⟩ := p
    by_cases h : k' = k
    · subst h
      simp [lookupKey]
    · have hb : (k' == k) = false := by simpa using h
      simp [lookupKey, hb, ih, h, Ne.symm h]

lemma lookupKey_dictInsert_self (m : CMap) (k : String) (v : JVal) :
    lookupKey (dictInsert m k v) k = some v := by
  induction m with
  | nil => simp [dictInsert, lookupKey]
  | cons p rest ih =>
    obtain ⟨k', v'⟩ := p
    by_cases h : k' = k
    · subst h
      simp [dictInsert, lookupKey]
    · have hb : (k' == k) = false := by simpa using h
      simp [dictInsert, lookupKey, hb, ih]

lemma lookupKey_dictInsert_ne (m : CMap) (k k2 : String) (v : JVal)
    (h : k ≠ k2) : lookupKey (dictInsert m k v) k2 = lookupKey m k2 := by
  induction m with
  | nil => simp [dictInsert, lookupKey, (by simpa using h : (k == k2) = false)]
  | cons p rest ih =>
    obtain ⟨k', v'⟩ := p
    by_cases h' : k' = k
    · subst h'
      simp [dictInsert, lookupKey, (by simpa using h : (k' == k2) = false)]
    · have hb : (k' == k) = false := by simpa using h'
      by_cases h2 : k' = k2
      · subst h2
        simp [dictInsert, lookupKey, hb]
      · have hb2 : (k' == k2) = false := by simpa using h2
        simp [dictInsert, lookupKey, hb, hb2, ih]

lemma dictInsert_dictInsert_same (m : CMap) (k : String) (v : JVal) :
    dictInsert (dictInsert m k v) k v = dictInsert m k v := by
  induction m with
  | nil => simp [dictInsert]
  | cons p rest ih =>
    obtain ⟨k', v'⟩ := p
    by_cases h : k' = k
    · subst h
      simp [dictInsert]
    · have hb : (k' == k) = false := by simpa using h
      simp [dictInsert, hb, ih]

lemma mem_dictInsert (m : CMap) (k : String) (v : JVal) (q : String × JVal)
    (h : q ∈ dictInsert m k v) : q = (k, v) ∨ q ∈ m := by
  induction m with
  | nil =>
    simp [dictInsert] at h
    exact Or.inl h
  | cons p rest ih =>
    obtain ⟨k', v'⟩ := p
    by_cases h' : k' = k
    · subst h'
      simp [dictInsert] at h
      rcases h with h | h
      · exact Or.inl h
      · exact Or.inr (List.mem_cons_of_mem _ h)
    · have hb : (k' == k) = false := by simpa using h'
      simp [dictInsert, hb] at h
      rcases h with h | h
      · exact Or.inr (by simp [h])
      · rcases ih h with h | h
        · exact Or.inl h
        · exact Or.inr (List.mem_cons_of_mem _ h)

lemma mem_unionKeys (a b : CMap) (k : String) :
    k ∈ unionKeys a b ↔ k ∈ a.map Prod.fst ∨ k ∈ b.map Prod.fst := by
  simp [unionKeys, List.mem_dedup, List.mem_append]

/-! ## Supporting lemmas on the merge loop -/

lemma mergeLoop_lookup (f : String → Option JVal) :
    ∀ (keys : List String) (m : CMap), mergeLoop f keys = some m →
    ∀ k, lookupKey m k = if k ∈ keys then f k else none := by
  intro keys
  induction keys with
  | nil =>
    intro m hm k
    simp [mergeLoop] at hm
    subst hm
    simp [lookupKey]
  | cons k0 rest ih =>
    intro m hm k
    simp only [mergeLoop] at hm
    cases h0 : f k0 with
    | none => rw [h0] at hm; exact absurd hm (by simp)
    | some v0 =>
      rw [h0] at hm
      cases hrest : mergeLoop f rest with
      | none => rw [hrest] at hm; exact absurd hm (by simp)
      | some m' =>
        rw [hrest] at hm
        simp at hm
        subst hm
        by_cases hk : k0 = k
        · subst hk
          simp [lookupKey, h0]
        · have hb : (k0 == k) = false := by simpa using hk
          simp only [lookupKey, hb, if_false, Bool.false_eq_true]
          rw [ih m' hrest k]
          simp [List.mem_cons, Ne.symm hk]

lemma mergeLoop_isSome (f : String → Option JVal) :
    ∀ (keys : List String), (∀ k ∈ keys, (f k).isSome) →
    ∃ m, mergeLoop f keys = some m := by
  intro keys
  induction keys with
  | nil => intro _; exact ⟨[], rfl⟩
  | cons k0 rest ih =>
    intro h
    obtain ⟨v0, hv0⟩ := Option.isSome_iff_exists.mp (h k0 (by simp))
    obtain ⟨m', hm'⟩ := ih (fun k hk => h k (by simp [hk]))
    exact ⟨(k0, v0) :: m', by simp [mergeLoop, hv0, hm']⟩

lemma mergeLoop_sound (f : String → Option JVal) :
    ∀ (keys : List String) (m : CMap), mergeLoop f keys = some m →
    ∀ k ∈ keys, (f k).isSome := by
  intro keys
  induction keys with
  | nil => intro m _ k hk; exact absurd hk (by simp)
  | cons k0 rest ih =>
    intro m hm k hk
    simp only [mergeLoop] at hm
    cases h0 : f k0 with
    | none => rw [h0] at hm; exact absurd hm (by simp)
    | some v0 =>
      rw [h0] at hm
      cases hrest : mergeLoop f rest with
      | none => rw [hrest] at hm; exact absurd hm (by simp)
      | some m' =>
        rcases List.mem_cons.mp hk with h | h
        · subst h; simp [h0]
        · exact ih m' hrest k h

/-! ## Idempotence of the per-field merge -/

lemma mergedNewEntry_idem (v : JVal) (t : Int) (x : Option JVal) :
    mergedNewEntry v t (some (mergedNewEntry v t x)) = mergedNewEntry v t x := rfl

lemma mergedMissingEntry_legacy_idem (e e1 : JVal) (t : Int)
    (h : JVal.obj [("value", e), ("first_seen", .time t), ("last_seen", .time t),
          ("deprecated", .bool true)] = e1) :
    mergedMissingEntry e1 t = some e1 := by
  subst h
  simp [mergedMissingEntry, lookupKey, truthy, pyDays, sub_self, Int.zero_fdiv]

lemma mergedMissingEntry_idem (e e1 : JVal) (t : Int)
    (h : mergedMissingEntry e t = some e1) :
    mergedMissingEntry e1 t = some e1 := by
  cases e with
  | obj fields =>
    simp only [mergedMissingEntry] at h
    cases hls : lookupKey fields "last_seen" with
    | none =>
      rw [hls] at h
      simp at h
      subst h
      simp [mergedMissingEntry, hls]
    | some ls =>
      rw [hls] at h
      cases ls with
      | time lsT =>
        by_cases hd : pyDays t lsT > 30
        · simp only [truthy, if_true, hd] at h
          simp at h
          subst h
          have hne : ("deprecated" : String) ≠ "last_seen" := by decide
          simp [mergedMissingEntry,
            lookupKey_dictInsert_ne fields "deprecated" "last_seen" _ hne,
            hls, truthy, hd, dictInsert_dictInsert_same]
        · simp only [truthy, if_true, hd] at h
          simp at h
          subst h
          simp [mergedMissingEntry, hls, truthy, hd]
      | null =>
        simp only [truthy, Bool.false_eq_true, if_false] at h
        simp at h
        subst h
        simp [mergedMissingEntry, hls, truthy]
      | bool b =>
        cases b with
        | false =>
          simp only [truthy, Bool.false_eq_true, if_false] at h
          simp at h
          subst h
          simp [mergedMissingEntry, hls, truthy]
        | true => simp [truthy] at h
      | num n =>
        by_cases hn : n = 0
        · subst hn
          simp only [truthy, bne_self_eq_false, Bool.false_eq_true, if_false] at h
          simp at h
          subst h
          simp [mergedMissingEntry, hls, truthy]
        · simp [truthy, hn] at h
      | str s =>
        by_cases hs : s = ""
        · subst hs
          simp only [truthy, bne_self_eq_false, Bool.false_eq_true, if_false] at h
          simp at h
          subst h
          simp [mergedMissingEntry, hls, truthy]
        · simp [truthy, hs] at h
      | obj l =>
        cases l with
        | nil =>
          simp only [truthy, List.isEmpty_nil, Bool.not_true, Bool.false_eq_true,
            if_false] at h
          simp at h
          subst h
          simp [mergedMissingEntry, hls, truthy]
        | cons p rest => simp [truthy] at h
      | arr l =>
        cases l with
        | nil =>
          simp only [truthy, List.isEmpty_nil, Bool.not_true, Bool.false_eq_true,
            if_false] at h
          simp at h
          subst h
          simp [mergedMissingEntry, hls, truthy]
        | cons p rest => simp [truthy] at h
  | null =>
    simp only [mergedMissingEntry] at h
    simp at h
    exact mergedMissingEntry_legacy_idem _ _ _ h
  | bool b =>
    simp only [mergedMissingEntry] at h
    simp at h
    exact mergedMissingEntry_legacy_idem _ _ _ h
  | num n =>
    simp only [mergedMissingEntry] at h
    simp at h
    exact mergedMissingEntry_legacy_idem _ _ _ h
  | str s =>
    simp only [mergedMissingEntry] at h
    simp at h
    exact mergedMissingEntry_legacy_idem _ _ _ h
  | time t0 =>
    simp only [mergedMissingEntry] at h
    simp at h
    exact mergedMissingEntry_legacy_idem _ _ _ h
  | arr l =>
    simp only [mergedMissingEntry] at h
    simp at h
    exact mergedMissingEntry_legacy_idem _ _ _ h

/-- On the result of a merge, re-merging the same payload reproduces each
stored entry. -/
lemma mergeField_on_result (ex new : CMap) (t : Int) (m : CMap)
    (hm : mergeLoop (mergeField ex new t) (unionKeys ex new) = some m) :
    ∀ k, (lookupKey m k).isSome → mergeField m new t k = lookupKey m k := by
  intro k hk
  have hmem : k ∈ unionKeys ex new := by
    by_contra hmem
    rw [mergeLoop_lookup _ _ _ hm k, if_neg hmem] at hk
    simp at hk
  have hval : lookupKey m k = mergeField ex new t k := by
    rw [mergeLoop_lookup _ _ _ hm k, if_pos hmem]
  obtain ⟨e1, he1⟩ := Option.isSome_iff_exists.mp hk
  cases hnew : lookupKey new k with
  | some v =>
    have hold : mergeField ex new t k = some (mergedNewEntry v t (lookupKey ex k)) := by
      simp [mergeField, hnew]
    have he1' : e1 = mergedNewEntry v t (lookupKey ex k) := by
      have h2 : some e1 = mergeField ex new t k := he1.symm.trans hval
      rw [hold] at h2
      exact Option.some_inj.mp h2
    simp only [mergeField, hnew]
    rw [he1, he1', mergedNewEntry_idem]
  | none =>
    have hold : mergeField ex new t k = some e1 := by rw [← hval, he1]
    simp only [mergeField, hnew] at hold
    cases hex : lookupKey ex k with
    | none => rw [hex] at hold; exact absurd hold (by simp)
    | some e =>
      rw [hex] at hold
      rw [he1]
      simp only [mergeField, hnew, he1]
      exact mergedMissingEntry_idem e e1 t hold

/-- The key set of a successful merge is the key union of its inputs. -/
lemma merge_result_keys (ex new : CMap) (t : Int) (m : CMap)
    (hm : mergeLoop (mergeField ex new t) (unionKeys ex new) = some m) :
    ∀ k, (lookupKey m k).isSome ↔ k ∈ unionKeys ex new := by
  intro k
  constructor
  · intro hk
    by_contra hmem
    rw [mergeLoop_lookup _ _ _ hm k, if_neg hmem] at hk
    simp at hk
  · intro hmem
    rw [mergeLoop_lookup _ _ _ hm k, if_pos hmem]
    exact mergeLoop_sound _ _ _ hm k hmem

/-- C3.  Merge idempotence: for every existing custom-field map (including
`None`), every new payload and every timestamp `t`,
`merge(merge(existing, new, t), new, t)` equals (Python dict equality)
`merge(existing, new, t)`; in particular re-merging the same payload against
its own result changes nothing and `last_seen` stays `t`.  A raised
exception in the inner merge propagates identically on both sides. -/
theorem merge_custom_fields_idempotent (existing : Option CMap) (new : CMap)
    (t : Int) :
    optionDictEq
      ((merge_custom_fields existing new t).bind
        (fun m => merge_custom_fields (some m) new t))
      (merge_custom_fields existing new t) := by
  cases h1 : merge_custom_fields existing new t with
  | none => simp [optionDictEq]
  | some m =>
    have h1' : mergeLoop (mergeField (existing.getD []) new t)
        (unionKeys (existing.getD []) new) = some m := h1
    have hmemsome : ∀ k ∈ unionKeys m new, (mergeField m new t k).isSome := by
      intro k hk
      rcases (mem_unionKeys m new k).mp hk with hkm | hkn
      · have hs : (lookupKey m k).isSome := (lookupKey_isSome_iff m k).mpr hkm
        rw [mergeField_on_result _ _ t m h1' k hs]
        exact hs
      · obtain ⟨v, hv⟩ :=
          Option.isSome_iff_exists.mp ((lookupKey_isSome_iff new k).mpr hkn)
        simp [mergeField, hv]
    obtain ⟨m2, hm2⟩ := mergeLoop_isSome (mergeField m new t) (unionKeys m new)
      hmemsome
    have hm2' : merge_custom_fields (some m) new t = some m2 := hm2
    have hb : ((some m).bind fun x => merge_custom_fields (some x) new t)
        = some m2 := hm2'
    rw [hb]
    show dictEq m2 m
    intro k
    by_cases hk2 : k ∈ unionKeys m new
    · have hsome : (lookupKey m k).isSome := by
        rcases (mem_unionKeys m new k).mp hk2 with hkm | hkn
        · exact (lookupKey_isSome_iff m k).mpr hkm
        · exact (merge_result_keys _ _ t m h1' k).mpr
            ((mem_unionKeys _ new k).mpr (Or.inr hkn))
      rw [mergeLoop_lookup _ _ _ hm2 k, if_pos hk2]
      exact mergeField_on_result _ _ t m h1' k hsome
    · rw [mergeLoop_lookup _ _ _ hm2 k, if_neg hk2]
      have hnone : ¬(lookupKey m k).isSome := fun hs =>
        hk2 ((mem_unionKeys m new k).mpr
          (Or.inl ((lookupKey_isSome_iff m k).mp hs)))
      exact (Option.not_isSome_iff_eq_none.mp hnone).symm

/-- C4 counterexample.  At exactly 30 days of absence the claim requires
`deprecated = true`, but the code tests `days_since_seen > 30` strictly: a
field last seen at instant 0, absent from the new payload at instant
2592000 (= 30 days later), keeps `deprecated = false` — the merge returns
the entry unchanged. -/
theorem merge_deprecation_thirty_days_counterexample :
    pyDays 2592000 0 = 30 ∧
    merge_custom_fields
      (some [("region", JVal.obj [("value", .str "West"), ("first_seen", .time 0),
        ("last_seen", .time 0), ("deprecated", .bool false)])])
      [] 2592000
      = some [("region", JVal.obj [("value", .str "West"), ("first_seen", .time 0),
        ("last_seen", .time 0), ("deprecated", .bool false)])] := by
  exact ⟨rfl, rfl⟩

/-- C4 (amended).  Deprecation lifecycle: for a custom field with a metadata
entry, (1) when the field is absent from the new payload and strictly more
than 30 full days have elapsed since its `last_seen` (in particular 31 days),
the retained entry is marked `deprecated = true`; (2) whenever the field
reappears in a payload, the merged entry has `deprecated = false`,
`last_seen` set to the merge timestamp, and `first_seen` preserved. -/
theorem merge_deprecation_lifecycle_amended :
    (∀ (ex new : CMap) (t : Int) (k : String) (fields : CMap) (ls : Int)
      (m : CMap),
      merge_custom_fields (some ex) new t = some m →
      lookupKey new k = none →
      lookupKey ex k = some (.obj fields) →
      lookupKey fields "last_seen" = some (.time ls) →
      pyDays t ls > 30 →
      lookupKey m k = some (.obj (dictInsert fields "deprecated" (.bool true))) ∧
      lookupKey (dictInsert fields "deprecated" (.bool true)) "deprecated"
        = some (.bool true)) ∧
    (∀ (ex new : CMap) (t : Int) (k : String) (v : JVal) (fields : CMap)
      (fs : JVal) (m : CMap),
      merge_custom_fields (some ex) new t = some m →
      lookupKey new k = some v →
      lookupKey ex k = some (.obj fields) →
      lookupKey fields "first_seen" = some fs →
      lookupKey m k = some (.obj [("value", v), ("last_seen", .time t),
        ("deprecated", .bool false), ("first_seen", fs)])) := by
  constructor
  · intro ex new t k fields ls m hm hnew hex hls hd
    have hm' : mergeLoop (mergeField ex new t) (unionKeys ex new) = some m := hm
    have hkmem : k ∈ unionKeys ex new :=
      (mem_unionKeys ex new k).mpr
        (Or.inl ((lookupKey_isSome_iff ex k).mp (by simp [hex])))
    constructor
    · rw [mergeLoop_lookup _ _ _ hm' k, if_pos hkmem]
      simp [mergeField, hnew, hex, mergedMissingEntry, hls, truthy, hd]
    · exact lookupKey_dictInsert_self fields "deprecated" (.bool true)
  · intro ex new t k v fields fs m hm hnew hex hfs
    have hm' : mergeLoop (mergeField ex new t) (unionKeys ex new) = some m := hm
    have hkmem : k ∈ unionKeys ex new :=
      (mem_unionKeys ex new k).mpr
        (Or.inr ((lookupKey_isSome_iff new k).mp (by simp [hnew])))
    rw [mergeLoop_lookup _ _ _ hm' k, if_pos hkmem]
    simp [mergeField, hnew, hex, mergedNewEntry, hfs]

/-- Witness for C4: a field last seen at instant 0 and absent 31 days later
(t = 2678400) is marked deprecated; the same field reappearing at instant
5184000 is un-deprecated with `last_seen` updated and `first_seen`
preserved. -/
theorem merge_deprecation_lifecycle_amended_witness :
    pyDays 2678400 0 > 30 ∧
    lookupKey [("region", JVal.obj [("value", .str "West"), ("first_seen", .time 0),
        ("last_seen", .time 0), ("deprecated", .bool true)])] "region"
      = some (.obj (dictInsert [("value", JVal.str "West"), ("first_seen", .time 0),
        ("last_seen", .time 0), ("deprecated", .bool false)] "deprecated" (.bool true))) ∧
    lookupKey [("region", JVal.obj [("value", .str "East"),
        ("last_seen", .time 5184000), ("deprecated", .bool false),
        ("first_seen", .time 0)])] "region"
      = some (.obj [("value", .str "East"), ("last_seen", .time 5184000),
        ("deprecated", .bool false), ("first_seen", .time 0)]) := by
  refine ⟨by decide, ?_, ?_⟩
  · exact (merge_deprecation_lifecycle_amended.1
      [("region", JVal.obj [("value", .str "West"), ("first_seen", .time 0),
        ("last_seen", .time 0), ("deprecated", .bool false)])]
      [] 2678400 "region"
      [("value", JVal.str "West"), ("first_seen", .time 0),
        ("last_seen", .time 0), ("deprecated", .bool false)]
      0 _ rfl rfl rfl rfl (by decide)).1
  · exact merge_deprecation_lifecycle_amended.2
      [("region", JVal.obj [("value", .str "West"), ("first_seen", .time 0),
        ("last_seen", .time 0), ("deprecated", .bool true)])]
      [("region", JVal.str "East")] 5184000 "region" (.str "East")
      [("value", JVal.str "West"), ("first_seen", .time 0),
        ("last_seen", .time 0), ("deprecated", .bool true)]
      (.time 0) _ rfl rfl rfl rfl

/-! ## Supporting lemmas on the client retry loop -/

lemma attemptLoop_no_auth (oracle : Nat → HttpOutcome) (mr rd : Nat) :
    ∀ (remaining attempt : Nat),
      (attemptLoop oracle mr rd attempt remaining).1.countP isAuthEvent = 0 := by
  intro remaining
  induction remaining with
  | zero => intro attempt; simp [attemptLoop]
  | succ rem ih =>
    intro attempt
    simp only [attemptLoop]
    cases h : oracle attempt with
    | response status body =>
      cases hs : (status == 200) with
      | true => simp [hs, isAuthEvent]
      | false => simp [hs, isAuthEvent]
    | netError =>
      by_cases hlt : attempt < mr - 1
      · simp [hlt, List.countP_cons, isAuthEvent, ih]
      · simp [hlt, isAuthEvent]

lemma attemptLoop_netError_step (oracle : Nat → HttpOutcome)
    (mr rd attempt rem : Nat) (ho : oracle attempt = HttpOutcome.netError)
    (hlt : attempt < mr - 1) :
    attemptLoop oracle mr rd attempt (rem + 1)
      = (ClientEvent.httpCall attempt :: ClientEvent.sleep (rd * (attempt + 1)) ::
          (attemptLoop oracle mr rd (attempt + 1) rem).1,
         (attemptLoop oracle mr rd (attempt + 1) rem).2) := by
  conv_lhs => rw [attemptLoop]
  rw [ho]
  simp [hlt]

lemma attemptLoop_netError_last (oracle : Nat → HttpOutcome)
    (mr rd attempt rem : Nat) (ho : oracle attempt = HttpOutcome.netError)
    (hlt : ¬(attempt < mr - 1)) :
    attemptLoop oracle mr rd attempt (rem + 1)
      = ([ClientEvent.httpCall attempt], RequestResult.connectionError) := by
  conv_lhs => rw [attemptLoop]
  rw [ho]
  simp [hlt]

lemma attemptLoop_allNetError (oracle : Nat → HttpOutcome) (mr rd : Nat)
    (h : ∀ i, oracle i = HttpOutcome.netError) :
    ∀ (remaining attempt : Nat), 1 ≤ remaining → attempt + remaining = mr →
      (attemptLoop oracle mr rd attempt remaining).1.countP isHttpEvent
          = remaining ∧
      (attemptLoop oracle mr rd attempt remaining).2
          = RequestResult.connectionError ∧
      sleepDurations (attemptLoop oracle mr rd attempt remaining).1
          = (List.range (remaining - 1)).map (fun i => rd * (attempt + i + 1)) := by
  intro remaining
  induction remaining with
  | zero => intro attempt h1 _; omega
  | succ rem ih =>
    intro attempt _ hsum
    cases rem with
    | zero =>
      have hlt : ¬(attempt < mr - 1) := by omega
      rw [attemptLoop_netError_last oracle mr rd attempt 0 (h attempt) hlt]
      simp [isHttpEvent, sleepDurations]
    | succ rem2 =>
      have hlt : attempt < mr - 1 := by omega
      obtain ⟨ihc, ihr, ihs⟩ := ih (attempt + 1) (by omega) (by omega)
      rw [attemptLoop_netError_step oracle mr rd attempt (rem2 + 1)
        (h attempt) hlt]
      refine ⟨?_, ihr, ?_⟩
      · simp [List.countP_cons, isHttpEvent, ihc]
      · simp only [sleepDurations, List.filterMap_cons] at ihs ⊢
        rw [ihs]
        have hr : List.range (rem2 + 1) = 0 :: (List.range rem2).map Nat.succ :=
          List.range_succ_eq_map rem2
        rw [show rem2 + 1 + 1 - 1 = rem2 + 1 by omega,
          show rem2 + 1 - 1 = rem2 by omega, hr]
        simp only [List.map_cons, List.map_map, List.cons.injEq]
        refine ⟨by ring_nf, ?_⟩
        apply List.map_congr_left
        intro i _
        simp only [Function.comp_apply, Nat.succ_eq_add_one]
        ring_nf

/-- C2 counterexample.  An HTTP 5xx response is not retried: with a client
that always returns status 500 and `max_retries = 3`, `_request` makes
exactly one attempt and raises `NetSuiteAPIError` (the non-retryable
ApiError), not `ConnectionError` after three attempts as the claim
requires. -/
theorem request_5xx_single_attempt_counterexample :
    requestRun "GET" (fun _ => HttpOutcome.response 500 .null) 3 1
      = ([ClientEvent.auth, ClientEvent.httpCall 0],
         RequestResult.apiError 500) ∧
    ([ClientEvent.auth, ClientEvent.httpCall 0].countP isHttpEvent = 1) ∧
    (1 : Nat) ≠ 3 := by
  exact ⟨rfl, rfl, by decide⟩

/-- C2 (amended).  Retry bound: only transport-level network errors are
retried.  If every attempt fails with a network error, exactly `maxRetries`
attempts are made, `ConnectionError` is raised, and the sleeps between
consecutive attempts are `retryDelay * (attempt+1)` (linear backoff); any
non-200 HTTP response — 4xx and 5xx alike — raises the non-retryable
ApiError immediately on the attempt where it occurs, so a 4xx on the first
attempt means exactly one attempt. -/
theorem request_retry_bound_amended :
    (∀ (method : String) (oracle : Nat → HttpOutcome) (mr rd : Nat),
      enforceReadOnlyOk method = true →
      (∀ i, oracle i = HttpOutcome.netError) → 1 ≤ mr →
      (requestRun method oracle mr rd).1.countP isHttpEvent = mr ∧
      (requestRun method oracle mr rd).2 = RequestResult.connectionError ∧
      sleepDurations (requestRun method oracle mr rd).1
        = (List.range (mr - 1)).map (fun i => rd * (i + 1))) ∧
    (∀ (method : String) (oracle : Nat → HttpOutcome) (mr rd status : Nat)
      (body : JVal),
      enforceReadOnlyOk method = true → 1 ≤ mr →
      oracle 0 = HttpOutcome.response status body → status ≠ 200 →
      requestRun method oracle mr rd
        = ([ClientEvent.auth, ClientEvent.httpCall 0],
           RequestResult.apiError status)) := by
  constructor
  · intro method oracle mr rd henf hnet hmr
    obtain ⟨hc, hr, hs⟩ := attemptLoop_allNetError oracle mr rd hnet mr 0 hmr
      (by omega)
    simp only [requestRun, henf, if_true]
    refine ⟨?_, hr, ?_⟩
    · simp [List.countP_cons, isHttpEvent, hc]
    · simp only [sleepDurations, List.filterMap_cons] at hs ⊢
      rw [hs]
      simp
  · intro method oracle mr rd status body henf hmr h0 hs
    cases mr with
    | zero => omega
    | succ rem =>
      have hb : (status == 200) = false := by simpa using hs
      simp only [requestRun, henf, if_true]
      conv_lhs => rw [attemptLoop]
      rw [h0]
      simp [hb]

/-- Witness for C2: with `max_retries = 3`, `retry_delay = 2` and a client
that always fails with a transport error, three attempts are made,
`ConnectionError` is raised, and the sleeps are 2 s then 4 s; with a 404 on
the first attempt, exactly one attempt is made and ApiError is raised. -/
theorem request_retry_bound_amended_witness :
    enforceReadOnlyOk "GET" = true ∧
    ((requestRun "GET" (fun _ => HttpOutcome.netError) 3 2).1.countP
        isHttpEvent = 3 ∧
      (requestRun "GET" (fun _ => HttpOutcome.netError) 3 2).2
        = RequestResult.connectionError ∧
      sleepDurations (requestRun "GET" (fun _ => HttpOutcome.netError) 3 2).1
        = (List.range 2).map (fun i => 2 * (i + 1))) ∧
    requestRun "GET" (fun _ => HttpOutcome.response 404 .null) 3 2
      = ([ClientEvent.auth, ClientEvent.httpCall 0],
         RequestResult.apiError 404) := by
  refine ⟨rfl, ?_, ?_⟩
  · exact request_retry_bound_amended.1 "GET" (fun _ => HttpOutcome.netError)
      3 2 rfl (fun _ => rfl) (by decide)
  · exact request_retry_bound_amended.2 "GET"
      (fun _ => HttpOutcome.response 404 .null) 3 2 404 .null rfl (by decide)
      rfl (by decide)

/-- C7 counterexample.  Auth headers are computed once per `_request` call,
before the retry loop: with three network-error attempts there are three HTTP
round trips but only one `get_auth_headers` call, so retried attempts reuse
the original headers (same nonce/signature) instead of fresh ones per
outgoing request. -/
theorem auth_headers_per_attempt_counterexample :
    (requestRun "GET" (fun _ => HttpOutcome.netError) 3 1).1.countP
        isAuthEvent = 1 ∧
    (requestRun "GET" (fun _ => HttpOutcome.netError) 3 1).1.countP
        isHttpEvent = 3 ∧
    (1 : Nat) ≠ 3 := by
  exact ⟨rfl, rfl, by decide⟩

/-- C7 (amended).  The configured auth provider's `get_auth_headers` is
invoked exactly once per `_request` invocation, before the retry loop; every
retry attempt inside the call reuses those headers. -/
theorem auth_headers_once_per_request_amended :
    ∀ (method : String) (oracle : Nat → HttpOutcome) (mr rd : Nat),
      enforceReadOnlyOk method = true →
      (requestRun method oracle mr rd).1.countP isAuthEvent = 1 := by
  intro method oracle mr rd henf
  simp [requestRun, henf, List.countP_cons, isAuthEvent,
    attemptLoop_no_auth oracle mr rd mr 0]

/-- Witness for C7: a successful GET computes auth headers exactly once. -/
theorem auth_headers_once_per_request_amended_witness :
    enforceReadOnlyOk "GET" = true ∧
    (requestRun "GET" (fun _ => HttpOutcome.response 200 .null) 5 2).1.countP
        isAuthEvent = 1 := by
  exact ⟨rfl, auth_headers_once_per_request_amended "GET"
    (fun _ => HttpOutcome.response 200 .null) 5 2 rfl⟩

/-- C8.  Read-only enforcement: for every method whose upper-cased form is
not GET, `_request` fails with `ReadOnlyViolation` immediately — the empty
event trace shows no auth-header computation and no network I/O happened —
while the bulk SuiteQL submission (transport-level POST) performs its HTTP
round trip without any read-only check. -/
theorem read_only_enforcement :
    (∀ (method : String) (oracle : Nat → HttpOutcome) (mr rd : Nat),
      pyUpper method ≠ "GET" →
      requestRun method oracle mr rd = ([], RequestResult.readOnlyViolation)) ∧
    (∀ outcome, (querySuiteqlRun outcome).1.countP isHttpEvent = 1) := by
  constructor
  · intro method oracle mr rd hne
    have henf : enforceReadOnlyOk method = false := by
      simp [enforceReadOnlyOk, ALLOWED_HTTP_METHODS, List.contains, hne]
    simp [requestRun, henf]
  · intro outcome
    rfl

/-- Witness for C8: a POST is rejected before any side effect; a bulk query
still performs its round trip. -/
theorem read_only_enforcement_witness :
    pyUpper "POST" ≠ "GET" ∧
    requestRun "POST" (fun _ => HttpOutcome.response 200 .null) 3 1
      = ([], RequestResult.readOnlyViolation) ∧
    (querySuiteqlRun (HttpOutcome.response 200 .null)).1.countP isHttpEvent
      = 1 := by
  refine ⟨by decide, ?_, ?_⟩
  · exact read_only_enforcement.1 "POST"
      (fun _ => HttpOutcome.response 200 .null) 3 1 (by decide)
  · exact read_only_enforcement.2 (HttpOutcome.response 200 .null)

/-- C10.  The bulk SuiteQL path makes exactly one HTTP round trip per call
with no retry and no backoff sleep; any response with a status other than
200 — 5xx included — immediately raises `NetSuiteAPIError`; transport-level
exceptions are not caught there and propagate as raw library errors rather
than one of the typed taxonomy errors. -/
theorem suiteql_single_attempt_classification :
    (∀ outcome, (querySuiteqlRun outcome).1.countP isHttpEvent = 1 ∧
      sleepDurations (querySuiteqlRun outcome).1 = []) ∧
    (∀ (status : Nat) (body : JVal), status ≠ 200 →
      (querySuiteqlRun (HttpOutcome.response status body)).2
        = QueryResult.apiError status) ∧
    (querySuiteqlRun HttpOutcome.netError).2 = QueryResult.transportRaised := by
  refine ⟨fun outcome => ⟨rfl, rfl⟩, ?_, rfl⟩
  intro status body hs
  have hb : (status != 200) = true := by simpa using hs
  simp [querySuiteqlRun, hb]

/-- Witness for C10: a 500 response on the bulk path raises ApiError after a
single round trip. -/
theorem suiteql_single_attempt_classification_witness :
    (500 : Nat) ≠ 200 ∧
    (querySuiteqlRun (HttpOutcome.response 500 .null)).2
      = QueryResult.apiError 500 ∧
    (querySuiteqlRun (HttpOutcome.response 500 .null)).1.countP isHttpEvent
      = 1 := by
  refine ⟨by decide, ?_, ?_⟩
  · exact suiteql_single_attempt_classification.2.1 500 .null (by decide)
  · exact (suiteql_single_attempt_classification.1
      (HttpOutcome.response 500 .null)).1

/-! ## Supporting lemmas on the storage trace -/

lemma takeWhile_upsert_prefix_commit (us : List DbEvent)
    (hus : ∀ e ∈ us, e = DbEvent.upsert) (tail : List DbEvent) :
    (us ++ DbEvent.commit :: tail).takeWhile
      (fun e => !(e == DbEvent.commit)) = us := by
  induction us with
  | nil => simp [List.takeWhile]
  | cons e rest ih =>
    have he : e = DbEvent.upsert := hus e (by simp)
    subst he
    have h1 : (!(DbEvent.upsert == DbEvent.commit)) = true := rfl
    simp only [List.cons_append, List.takeWhile, h1]
    exact congrArg (DbEvent.upsert :: ·) (ih fun x hx => hus x (by simp [hx]))

lemma recordPhaseCommits_upsert_prefix (us : List DbEvent)
    (hus : ∀ e ∈ us, e = DbEvent.upsert) (tail : List DbEvent)
    (htail : tail = [] ∨ tail = [DbEvent.metaWrite, DbEvent.commit]) :
    recordPhaseCommits (us ++ DbEvent.commit :: tail) = 1 := by
  induction us with
  | nil =>
    rcases htail with h | h <;> subst h <;> rfl
  | cons e rest ih =>
    have he : e = DbEvent.upsert := hus e (by simp)
    subst he
    have := ih fun x hx => hus x (by simp [hx])
    simp only [recordPhaseCommits, List.cons_append, List.takeWhile] at this ⊢
    simpa [List.count_cons] using this

/-- C5 counterexample.  With a batch size of one and two available records
(two fetched pages), the storage phase still performs exactly one commit
covering all record writes — not one commit per batch as claimed. -/
theorem sync_commit_granularity_counterexample :
    fetch_all_vendors_suiteql [⟨[.str "r1"], true⟩, ⟨[.str "r2"], false⟩] none
      = ([.str "r1", .str "r2"], 2) ∧
    recordPhaseCommits (vendorStoreEvents [.str "r1", .str "r2"]) = 1 ∧
    (1 : Nat) ≠ 2 := by
  exact ⟨rfl, rfl, by decide⟩

/-- C5 (amended).  Commit granularity is per entity-type run, not per batch:
however many pages the fetch loop retrieved, every fetched record is upserted
inside one transaction committed once after the processing loop (the
metadata write is committed separately afterwards), so a crash before that
commit durably persists none of the run's records and a failure rolls the
whole run's uncommitted writes back. -/
theorem sync_commit_once_per_run_amended (records : List JVal) :
    recordPhaseCommits (vendorStoreEvents records) = 1 ∧
    (vendorStoreEvents records).takeWhile (fun e => !(e == DbEvent.commit))
      = records.map (fun _ => DbEvent.upsert) := by
  have hus : ∀ e ∈ records.map (fun _ => DbEvent.upsert), e = DbEvent.upsert := by
    intro e he
    rcases List.mem_map.mp he with ⟨a, -, rfl⟩
    exact rfl
  constructor
  · cases records with
    | nil => rfl
    | cons r rs =>
      have : ((r :: rs : List JVal).map fun _ => DbEvent.upsert)
          ++ [DbEvent.commit] ++ [DbEvent.metaWrite, DbEvent.commit]
          = ((r :: rs : List JVal).map fun _ => DbEvent.upsert)
          ++ DbEvent.commit :: [DbEvent.metaWrite, DbEvent.commit] := by
        simp
      rw [vendorStoreEvents, if_pos (by simp), this]
      exact recordPhaseCommits_upsert_prefix _ hus _ (Or.inr rfl)
  · cases records with
    | nil => rfl
    | cons r rs =>
      have : ((r :: rs : List JVal).map fun _ => DbEvent.upsert)
          ++ [DbEvent.commit] ++ [DbEvent.metaWrite, DbEvent.commit]
          = ((r :: rs : List JVal).map fun _ => DbEvent.upsert)
          ++ DbEvent.commit :: [DbEvent.metaWrite, DbEvent.commit] := by
        simp
      rw [vendorStoreEvents, if_pos (by simp), this]
      exact takeWhile_upsert_prefix_commit _ hus _

/-! ## C1: the sync-metadata cursor -/

lemma updateVendorSyncMetadata_some (r : SyncMetadataRow) (n : Nat) (t : Int)
    (full hw d : Bool) :
    ∃ r2, updateVendorSyncMetadata (some r) n t full hw d = some r2 ∧
      (r2 = r ∨ r2.last_sync_timestamp = t) := by
  unfold updateVendorSyncMetadata
  by_cases hd : d = true
  · simp [hd]
  · simp only [hd, Bool.false_eq_true, if_false]
    by_cases hn : n > 0
    · simp [hn]
    · simp [hn]

lemma applySyncRuns_bound (runs : List SyncRunInput) :
    ∀ (r : SyncMetadataRow) (bound : Int),
      bound ≤ r.last_sync_timestamp →
      (∀ run ∈ runs, bound ≤ run.timestamp) →
      ∃ r1, applySyncRuns (some r) runs = some r1 ∧
        bound ≤ r1.last_sync_timestamp := by
  induction runs with
  | nil => intro r bound hb _; exact ⟨r, rfl, hb⟩
  | cons run rest ih =>
    intro r bound hb hts
    obtain ⟨r2, hr2, hcase⟩ := updateVendorSyncMetadata_some r run.fetched
      run.timestamp run.full run.hadWatermark run.dryRun
    have hb2 : bound ≤ r2.last_sync_timestamp := by
      rcases hcase with h | h
      · rw [h]; exact hb
      · rw [h]; exact hts run (by simp)
    obtain ⟨r1, hr1, hb1⟩ := ih r2 bound hb2
      (fun x hx => hts x (by simp [hx]))
    refine ⟨r1, ?_, hb1⟩
    simp only [applySyncRuns, List.foldl_cons] at hr1 ⊢
    rw [hr2]
    exact hr1

/-- C1.  Cursor monotonicity and zero-record protection: in a non-dry-run
sync run, (1) a run that fetched zero records leaves the stored
`SyncMetadata` row exactly as it was; (2) a run that fetched `n > 0` records
stores `last_sync_timestamp = ` the run's start timestamp,
`records_synced = n`, `sync_status = "completed"` and `is_full_sync =`
(forced full or no watermark); (3) a single run whose timestamp is at least
the stored one never decreases the stored timestamp; (4) across any sequence
of runs whose timestamps are at least the initial stored timestamp, the
stored high-water mark never drops below it. -/
theorem sync_metadata_cursor_monotone :
    (∀ (meta : Option SyncMetadataRow) (t : Int) (full hw : Bool),
      updateVendorSyncMetadata meta 0 t full hw false = meta) ∧
    (∀ (meta : Option SyncMetadataRow) (n : Nat) (t : Int) (full hw : Bool),
      0 < n →
      ∃ row, updateVendorSyncMetadata meta n t full hw false = some row ∧
        row.last_sync_timestamp = t ∧ row.records_synced = n ∧
        row.sync_status = "completed" ∧ row.is_full_sync = (full || !hw)) ∧
    (∀ (row : SyncMetadataRow) (n : Nat) (t : Int) (full hw d : Bool),
      row.last_sync_timestamp ≤ t →
      ∃ row2, updateVendorSyncMetadata (some row) n t full hw d = some row2 ∧
        row.last_sync_timestamp ≤ row2.last_sync_timestamp) ∧
    (∀ (r0 : SyncMetadataRow) (runs : List SyncRunInput),
      (∀ run ∈ runs, r0.last_sync_timestamp ≤ run.timestamp) →
      ∃ r1, applySyncRuns (some r0) runs = some r1 ∧
        r0.last_sync_timestamp ≤ r1.last_sync_timestamp) := by
  refine ⟨?_, ?_, ?_, ?_⟩
  · intro meta t full hw
    simp [updateVendorSyncMetadata]
  · intro meta n t full hw hn
    cases meta with
    | none =>
      refine ⟨⟨t, "completed", n, full || !hw, none⟩, ?_, rfl, rfl, rfl, rfl⟩
      simp [updateVendorSyncMetadata, hn]
    | some r =>
      refine ⟨⟨t, "completed", n, full || !hw, some t⟩, ?_, rfl, rfl, rfl, rfl⟩
      simp [updateVendorSyncMetadata, hn]
  · intro row n t full hw d hle
    obtain ⟨r2, hr2, hcase⟩ := updateVendorSyncMetadata_some row n t full hw d
    refine ⟨r2, hr2, ?_⟩
    rcases hcase with h | h
    · rw [h]
    · rw [h]; exact hle
  · intro r0 runs hts
    exact applySyncRuns_bound runs r0 r0.last_sync_timestamp le_rfl hts

/-- Witness for C1: a stored row at timestamp 100 is untouched by a
zero-record run at 200, fully rewritten by a 7-record run at 200, and a
two-run sequence at timestamps 150 and 250 keeps the stored mark at or above
100. -/
theorem sync_metadata_cursor_monotone_witness :
    updateVendorSyncMetadata (some ⟨100, "completed", 5, false, none⟩) 0 200
        false true false = some ⟨100, "completed", 5, false, none⟩ ∧
    (0 : Nat) < 7 ∧
    (∃ row, updateVendorSyncMetadata
        (some ⟨100, "completed", 5, false, none⟩) 7 200 false true false
        = some row ∧
      row.last_sync_timestamp = 200 ∧ row.records_synced = 7 ∧
      row.sync_status = "completed" ∧ row.is_full_sync = (false || !true)) ∧
    (∃ r1, applySyncRuns (some ⟨100, "completed", 5, false, none⟩)
        [⟨3, 150, false, true, false⟩, ⟨0, 250, false, true, false⟩]
        = some r1 ∧
      (100 : Int) ≤ r1.last_sync_timestamp) := by
  refine ⟨?_, by decide, ?_, ?_⟩
  · exact sync_metadata_cursor_monotone.1
      (some ⟨100, "completed", 5, false, none⟩) 200 false true
  · exact sync_metadata_cursor_monotone.2.1
      (some ⟨100, "completed", 5, false, none⟩) 7 200 false true (by decide)
  · exact sync_metadata_cursor_monotone.2.2.2
      ⟨100, "completed", 5, false, none⟩
      [⟨3, 150, false, true, false⟩, ⟨0, 250, false, true, false⟩]
      (by
        intro run hr
        simp only [List.mem_cons, List.mem_singleton] at hr
        rcases hr with rfl | rfl | h
        · norm_num
        · norm_num
        · simp at h)

/-! ## C6 and C9: classification -/

lemma processVendorLoop_custom_const :
    ∀ (items : List (String × JVal)) (known custom kn cu : CMap),
      (∀ p ∈ items, p.1 = "links" ∨ p.1 = "refName" ∨
        VENDOR_KNOWN_FIELDS.contains p.1 = true) →
      processVendorLoop items known custom = some (kn, cu) → cu = custom := by
  intro items
  induction items with
  | nil =>
    intro known custom kn cu _ h
    simp [processVendorLoop] at h
    exact h.2.symm
  | cons p rest ih =>
    intro known custom kn cu hgood h
    obtain ⟨k, v⟩ := p
    have hgk := hgood (k, v) (by simp)
    simp only [processVendorLoop] at h
    by_cases hmeta : (k == "links" || k == "refName") = true
    · rw [if_pos hmeta] at h
      exact ih known custom kn cu (fun q hq => hgood q (by simp [hq])) h
    · have hkl : k ≠ "links" ∧ k ≠ "refName" := by
        constructor <;> intro hk <;> subst hk <;> simp at hmeta
      have hcont : VENDOR_KNOWN_FIELDS.contains k = true := by
        rcases hgk with hk | hk | hk
        · exact absurd hk hkl.1
        · exact absurd hk hkl.2
        · exact hk
      rw [if_neg (by simpa using hmeta), if_pos hcont] at h
      cases happ : applyKnownVendorField k v known with
      | none => rw [happ] at h; exact absurd h (by simp)
      | some known2 =>
        rw [happ] at h
        exact ih known2 custom kn cu (fun q hq => hgood q (by simp [hq])) h

lemma normalizeVendorData_keys :
    ∀ (raw : CMap) (acc : CMap) (q : String × JVal),
      q ∈ raw.foldl
        (fun acc p => dictInsert acc (normalizeVendorKey p.1) p.2) acc →
      (∃ p ∈ raw, q.1 = normalizeVendorKey p.1) ∨ q ∈ acc := by
  intro raw
  induction raw with
  | nil => intro acc q hq; exact Or.inr hq
  | cons p rest ih =>
    intro acc q hq
    simp only [List.foldl_cons] at hq
    rcases ih (dictInsert acc (normalizeVendorKey p.1) p.2) q hq with h | h
    · obtain ⟨p2, hp2, he⟩ := h
      exact Or.inl ⟨p2, by simp [hp2], he⟩
    · rcases mem_dictInsert _ _ _ _ h with h | h
      · exact Or.inl ⟨p, by simp, by rw [h]⟩
      · exact Or.inr h

/-- C6 counterexample.  `legalName` is on the vendor allow-list, yet the
classifier has no handling clause for it: a record containing only that field
classifies to an empty known map and an empty custom map, so the known map is
not equal (even after name normalization) to the input record. -/
theorem classify_known_field_dropped_counterexample :
    VENDOR_KNOWN_FIELDS.contains "legalName" = true ∧
    process_vendor_fields [("legalName", JVal.str "Acme Legal")]
      = some ([], []) ∧
    lookupKey ([] : CMap) "legalName" = none ∧
    lookupKey [("legalName", JVal.str "Acme Legal")] "legalName"
      = some (.str "Acme Legal") := by
  exact ⟨rfl, rfl, rfl, rfl⟩

/-- C6 (amended).  Round-trip classification: for every record whose every
field name normalizes to a metadata key or an allow-listed key, the custom
map is empty; the known map holds exactly the handled known fields, renamed
to their snake_case column names with per-field value coercion (shown on a
record exercising all eleven handled vendor fields); allow-listed fields
without a handling clause are dropped. -/
theorem classify_known_fields_amended :
    (∀ (raw : CMap) (kn cu : CMap),
      (∀ p ∈ raw, normalizeVendorKey p.1 = "links" ∨
        normalizeVendorKey p.1 = "refName" ∨
        VENDOR_KNOWN_FIELDS.contains (normalizeVendorKey p.1) = true) →
      process_vendor_fields raw = some (kn, cu) → cu = []) ∧
    process_vendor_fields
      [("id", .num 123), ("entityId", .str "V100"),
       ("companyName", .str "Acme"), ("email", .null), ("phone", .str "555"),
       ("isInactive", .str "F"), ("balance", .num 250),
       ("currency", .obj [("id", .str "1"), ("refName", .str "USD")]),
       ("terms", .str "Net30"), ("dateCreated", .time 100),
       ("lastModifiedDate", .time 200)]
      = some ([("id", .str "123"), ("entity_id", .str "V100"),
          ("company_name", .str "Acme"), ("email", .null),
          ("phone", .str "555"), ("is_inactive", .bool false),
          ("balance", .num 250), ("currency", .str "USD"),
          ("terms", .str "Net30"), ("created_date", .time 100),
          ("last_modified_date", .time 200)], []) := by
  constructor
  · intro raw kn cu hgood h
    have hnorm : ∀ q ∈ normalizeVendorData raw,
        q.1 = "links" ∨ q.1 = "refName" ∨
        VENDOR_KNOWN_FIELDS.contains q.1 = true := by
      intro q hq
      rcases normalizeVendorData_keys raw [] q hq with hk | hk
      · obtain ⟨p, hp, he⟩ := hk
        rw [he]
        exact hgood p hp
      · exact absurd hk (by simp)
    exact processVendorLoop_custom_const (normalizeVendorData raw) [] [] kn cu
      hnorm h
  · rfl

/-- Witness for C6: a record with a single allow-listed handled field
classifies with an empty custom map. -/
theorem classify_known_fields_amended_witness :
    process_vendor_fields [("entityId", JVal.str "V1")]
      = some ([("entity_id", JVal.str "V1")], []) ∧
    (([] : CMap) = []) := by
  refine ⟨rfl, ?_⟩
  exact classify_known_fields_amended.1 [("entityId", JVal.str "V1")]
    [("entity_id", JVal.str "V1")] [] (by decide) rfl

/-- C9.  Reference unwrapping: a structured reference dict carrying a
`refName` (display name) key unwraps to the display name when truthy, else to
the value under `id`, else to null; the same `extract_reference_value` is
applied by the known-field chain to vendor `currency` (and `terms`) and to
vendor-bill `status` (and `currency`), and by the custom-field branch to any
custom dict carrying a `refName` key. -/
theorem reference_unwrapping :
    (∀ (fields : CMap) (s : String),
      lookupKey fields "refName" = some (.str s) → s ≠ "" →
      extract_reference_value (.obj fields) = .str s) ∧
    (∀ (fields : CMap), lookupKey fields "refName" = some .null →
      extract_reference_value (.obj fields)
        = (lookupKey fields "id").getD .null) ∧
    (∀ (fields : CMap), lookupKey fields "refName" = none →
      extract_reference_value (.obj fields)
        = (lookupKey fields "id").getD .null) ∧
    (∀ (v : JVal) (known : CMap),
      applyKnownVendorField "currency" v known
        = some (dictInsert known "currency" (extract_reference_value v))) ∧
    (∀ (v : JVal) (known : CMap),
      applyKnownBillField "status" v known
        = some (dictInsert known "status" (extract_reference_value v))) ∧
    (∀ (fields : CMap), (lookupKey fields "refName").isSome →
      customValue (.obj fields) = extract_reference_value (.obj fields)) := by
  refine ⟨?_, ?_, ?_, fun v known => rfl, fun v known => rfl, ?_⟩
  · intro fields s h hs
    simp [extract_reference_value, h, truthy, hs]
  · intro fields h
    simp [extract_reference_value, h, truthy]
  · intro fields h
    simp [extract_reference_value, h, truthy]
  · intro fields h
    simp [customValue, h]

/-- Witness for C9: `{"id": "42", "refName": "USD"}` unwraps to `"USD"` on
both the known and custom paths; `{"refName": null, "id": "42"}` falls back
to the id. -/
theorem reference_unwrapping_witness :
    lookupKey [("id", JVal.str "42"), ("refName", .str "USD")] "refName"
      = some (.str "USD") ∧
    extract_reference_value
      (.obj [("id", JVal.str "42"), ("refName", .str "USD")]) = .str "USD" ∧
    extract_reference_value
      (.obj [("refName", JVal.null), ("id", .str "42")]) = .str "42" ∧
    customValue (.obj [("id", JVal.str "42"), ("refName", .str "USD")])
      = .str "USD" ∧
    applyKnownVendorField "currency"
      (.obj [("id", JVal.str "42"), ("refName", .str "USD")]) []
      = some [("currency", .str "USD")] := by
  refine ⟨rfl, ?_, ?_, ?_, ?_⟩
  · exact reference_unwrapping.1
      [("id", JVal.str "42"), ("refName", .str "USD")] "USD" rfl (by decide)
  · exact reference_unwrapping.2.1 [("refName", JVal.null), ("id", .str "42")]
      rfl
  · exact reference_unwrapping.2.2.2.2.2
      [("id", JVal.str "42"), ("refName", .str "USD")] rfl
  · exact reference_unwrapping.2.2.2.1
      (.obj [("id", JVal.str "42"), ("refName", .str "USD")]) []

end VendorAnalysis
